import Mathlib

/-!
Shallow embedding of the USD ASCII parser front end declared in
`src/tinyusdz/src/ascii-parser.hh` (namespace `tinyusdz::ascii`, class
`AsciiParser`), together with theorems settling the specification claims.

The header contains the inline bodies of the diagnostic-stack operations
(`PushError`, `PopError`, `PushWarn`, `PopWarn`), the load-state queries
(`IsReferenced`, `IsSubLayered`, `IsPayloaded`, `IsToplevel`),
`PathStackDepth`, and `VariableDef::DefaultPostParseHandler`; these are
translated directly from the source. The bodies of the stream/checkpoint
operations and of the typed-value decoder combinators are declared in the
header but implemented in a translation unit that is not part of the
repository snapshot, so those are modelled from the specification, as
marked in the individual doc comments.
-/

namespace TinyusdzAscii

/-- Cursor `(row, col)` tracked for diagnostics (ascii-parser.hh:123-126). -/
structure Cursor where
  row : Int
  col : Int
deriving Repr, DecidableEq

/-- One diagnostic entry `{err, cursor}` (ascii-parser.hh:128-131; the
spelling `ErrorDiagnositc` is the source's own). -/
structure ErrorDiagnositc where
  err : String
  cursor : Cursor
deriving Repr, DecidableEq

/-- Parser checkpoint: byte location in the stream reader, `int64_t loc`
(ascii-parser.hh:119-121). -/
structure ParseState where
  loc : Int
deriving Repr, DecidableEq

/-- The state of one `AsciiParser` instance: the borrowed byte stream
(`input` plus current offset `loc`, standing for the `StreamReader`), the
current cursor, the two diagnostic stacks, the checkpoint stack
`parse_stack`, the path stack, and the three load-state flags
(ascii-parser.hh:777-824).  Stacks are lists with the top at the head. -/
structure AsciiParserState where
  input : List Char
  loc : Nat
  curr_cursor : Cursor
  err_stack : List ErrorDiagnositc
  warn_stack : List ErrorDiagnositc
  parse_stack : List ParseState
  path_stack : List String
  sub_layered : Bool
  referenced : Bool
  payloaded : Bool
deriving Repr, DecidableEq

/-- `PushError` (ascii-parser.hh:133-139): builds a diagnostic from the
message and the current cursor and pushes it on `err_stack`. -/
def PushError (msg : String) (s : AsciiParserState) : AsciiParserState :=
  { s with err_stack := ⟨msg, ⟨s.curr_cursor.row, s.curr_cursor.col⟩⟩ :: s.err_stack }

/-- `PopError` (ascii-parser.hh:142-146): pops `err_stack` if non-empty,
otherwise does nothing. -/
def PopError (s : AsciiParserState) : AsciiParserState :=
  match s.err_stack with
  | [] => s
  | _ :: rest => { s with err_stack := rest }

/-- `PushWarn` (ascii-parser.hh:148-154): like `PushError` on `warn_stack`. -/
def PushWarn (msg : String) (s : AsciiParserState) : AsciiParserState :=
  { s with warn_stack := ⟨msg, ⟨s.curr_cursor.row, s.curr_cursor.col⟩⟩ :: s.warn_stack }

/-- `PopWarn` (ascii-parser.hh:157-161): pops `warn_stack` if non-empty,
otherwise does nothing. -/
def PopWarn (s : AsciiParserState) : AsciiParserState :=
  match s.warn_stack with
  | [] => s
  | _ :: rest => { s with warn_stack := rest }

/-- `IsReferenced` (ascii-parser.hh:602). -/
def IsReferenced (s : AsciiParserState) : Bool := s.referenced

/-- `IsSubLayered` (ascii-parser.hh:605). -/
def IsSubLayered (s : AsciiParserState) : Bool := s.sub_layered

/-- `IsPayloaded` (ascii-parser.hh:608). -/
def IsPayloaded (s : AsciiParserState) : Bool := s.payloaded

/-- `IsToplevel` (ascii-parser.hh:611-613):
`return !IsReferenced() && !IsSubLayered() && !IsPayloaded();`. -/
def IsToplevel (s : AsciiParserState) : Bool :=
  !IsReferenced s && !IsSubLayered s && !IsPayloaded s

/-- `PathStackDepth` (ascii-parser.hh:769):
`bool PathStackDepth() { return _path_stack.size(); }` — the `size_t`
stack size is converted to `bool`, which in C++ yields `true` exactly when
the size is non-zero. -/
def PathStackDepth (s : AsciiParserState) : Bool :=
  s.path_stack.length != 0

/-- Modelled from the spec: `GetError` (declared at ascii-parser.hh:594,
body not under src/) renders the accumulated error stack into a single
report string. -/
def GetError (s : AsciiParserState) : String :=
  String.join (s.err_stack.map
    (fun d => d.err ++ " (near line " ++ toString d.cursor.row ++ ", col "
      ++ toString d.cursor.col ++ ")\n"))

/-- `VariableDef::DefaultPostParseHandler` (ascii-parser.hh:174-177):
always returns `true` (success) for any input string. -/
def DefaultPostParseHandler (_ : String) : Except String Bool :=
  Except.ok true

/-- Metadata schema entry `VariableDef` (ascii-parser.hh:166-201):
type name, metadatum name, array-allowed flag and post-parse handler. -/
structure VariableDef where
  type : String
  name : String
  allow_array_type : Bool
  post_parse_handler : String → Except String Bool

/-- The `VariableDef(t, n)` constructor call with the C++ default
arguments `a = false, ph = DefaultPostParseHandler`
(ascii-parser.hh:187-189). -/
def VariableDef.makeDefault (t n : String) : VariableDef :=
  ⟨t, n, false, DefaultPostParseHandler⟩

/-- Modelled from the spec: `CurrLoc` (declared at ascii-parser.hh:685,
body not under src/) returns the current absolute byte offset. -/
def CurrLoc (s : AsciiParserState) : Nat := s.loc

/-- Modelled from the spec: `PushParserState` (declared at
ascii-parser.hh:688, body not under src/) records the current absolute
stream offset on the checkpoint stack `parse_stack`. -/
def PushParserState (s : AsciiParserState) : AsciiParserState :=
  { s with parse_stack := ⟨(s.loc : Int)⟩ :: s.parse_stack }

/-- Modelled from the spec: `PopParserState` (declared at
ascii-parser.hh:689, body not under src/) pops the most recent checkpoint
off `parse_stack` and hands it to the caller; fails on an empty stack. -/
def PopParserState (s : AsciiParserState) : Option (ParseState × AsciiParserState) :=
  match s.parse_stack with
  | [] => none
  | st :: rest => some (st, { s with parse_stack := rest })

/-- Modelled from the spec: `SeekTo` (declared at ascii-parser.hh:686,
body not under src/) moves the stream to the absolute byte position. -/
def SeekTo (pos : Nat) (s : AsciiParserState) : AsciiParserState :=
  { s with loc := pos }

/-- Modelled from the spec: `LookCharN` (declared at ascii-parser.hh:679,
body not under src/) fetches the next `n` bytes without moving the stream
position; here it returns the bytes still available among those. -/
def LookCharN (n : Nat) (s : AsciiParserState) : List Char :=
  (s.input.drop s.loc).take n

/-- Consuming input between a checkpoint and its restoration: the stream
position advances monotonically (clamped at end of stream) and the cursor
moves to some new value; nothing else of the parser state changes
(spec §5: the reader "advances monotonically except during explicit
checkpoint restoration"). -/
def consumeBytes (k : Nat) (c : Cursor) (s : AsciiParserState) : AsciiParserState :=
  { s with loc := min (s.loc + k) s.input.length, curr_cursor := c }

/-- Push a list of error messages in order (`PushError` iterated). -/
def pushErrorList (msgs : List String) (s : AsciiParserState) : AsciiParserState :=
  match msgs with
  | [] => s
  | m :: ms => pushErrorList ms (PushError m s)

/-- Pop the error stack `n` times (`PopError` iterated). -/
def popErrorN : Nat → AsciiParserState → AsciiParserState
  | 0, s => s
  | n + 1, s => PopError (popErrorN n s)

lemma popError_pushError (m : String) (s : AsciiParserState) :
    PopError (PushError m s) = s := by
  cases s
  simp [PushError, PopError]

lemma popErrorN_pushErrorList (msgs : List String) (s : AsciiParserState) :
    popErrorN msgs.length (pushErrorList msgs s) = s := by
  induction msgs generalizing s with
  | nil => simp [popErrorN, pushErrorList]
  | cons m ms ih =>
      simp only [pushErrorList, List.length_cons, popErrorN]
      rw [ih (PushError m s), popError_pushError]

/-- Claim C5: for every parser state and every sequence of N error
messages, performing the N `PushError` calls followed by N `PopError`
calls leaves the error log, and hence the rendered error report
(`GetError`), identical to the state before the first push. -/
theorem push_pop_error_report_identical (msgs : List String) (s : AsciiParserState) :
    (popErrorN msgs.length (pushErrorList msgs s)).err_stack = s.err_stack ∧
      GetError (popErrorN msgs.length (pushErrorList msgs s)) = GetError s := by
  rw [popErrorN_pushErrorList]
  exact ⟨rfl, rfl⟩

/-- Claim C6: `PopError` and `PopWarn` remove exactly the most recently
pushed diagnostic from their respective stack when that stack is
non-empty, and are no-ops (they never fail) when it is empty. -/
theorem pop_removes_top_or_noop (s : AsciiParserState) :
    (∀ d rest, s.err_stack = d :: rest → PopError s = { s with err_stack := rest }) ∧
      (s.err_stack = [] → PopError s = s) ∧
      (∀ d rest, s.warn_stack = d :: rest → PopWarn s = { s with warn_stack := rest }) ∧
      (s.warn_stack = [] → PopWarn s = s) := by
  refine ⟨?_, ?_, ?_, ?_⟩
  · intro d rest h
    simp [PopError, h]
  · intro h
    simp [PopError, h]
  · intro d rest h
    simp [PopWarn, h]
  · intro h
    simp [PopWarn, h]

/-- Witness for C6 at a concrete state: a one-deep error stack loses its
top, and popping the empty warning stack is the identity. -/
theorem pop_removes_top_or_noop_witness :
    PopError ⟨[], 0, ⟨0, 0⟩, [⟨"e", ⟨1, 2⟩⟩], [], [], [], false, false, false⟩ =
        ⟨[], 0, ⟨0, 0⟩, [], [], [], [], false, false, false⟩ ∧
      PopWarn ⟨[], 0, ⟨0, 0⟩, [⟨"e", ⟨1, 2⟩⟩], [], [], [], false, false, false⟩ =
        ⟨[], 0, ⟨0, 0⟩, [⟨"e", ⟨1, 2⟩⟩], [], [], [], false, false, false⟩ :=
  ⟨(pop_removes_top_or_noop _).1 ⟨"e", ⟨1, 2⟩⟩ [] rfl,
    (pop_removes_top_or_noop _).2.2.2 rfl⟩

/-- Claim C7: for every combination of the three load-state flags,
`IsToplevel` returns true exactly when `IsReferenced`, `IsSubLayered` and
`IsPayloaded` all return false. -/
theorem toplevel_iff_no_flags (s : AsciiParserState) :
    IsToplevel s = true ↔
      (IsReferenced s = false ∧ IsSubLayered s = false ∧ IsPayloaded s = false) := by
  cases s with
  | mk input loc cur es ws ps pth sl rf pl =>
      cases sl <;> cases rf <;> cases pl <;>
        simp [IsToplevel, IsReferenced, IsSubLayered, IsPayloaded]

/-- Claim C8: `PathStackDepth` returns a boolean (the C++ body converts
the `size_t` stack size to the declared `bool` return type) that is true
exactly when the path stack is non-empty; it conveys only presence, not
the actual depth count. -/
theorem pathstack_depth_is_nonempty_flag (s : AsciiParserState) :
    PathStackDepth s = true ↔ s.path_stack ≠ [] := by
  simp [PathStackDepth]

/-- Claim C9: `PushError` appends exactly one diagnostic — the message
paired with the current cursor — to the error stack and changes nothing
else (the structure-update equation fixes every other field, in
particular the warning stack, the cursor, the stream position and the
previously pushed diagnostics); symmetrically `PushWarn` modifies only
the warning stack. -/
theorem push_frame_conditions (msg : String) (s : AsciiParserState) :
    PushError msg s = { s with err_stack := ⟨msg, s.curr_cursor⟩ :: s.err_stack } ∧
      PushWarn msg s = { s with warn_stack := ⟨msg, s.curr_cursor⟩ :: s.warn_stack } ∧
      (PushError msg s).warn_stack = s.warn_stack ∧
      (PushError msg s).curr_cursor = s.curr_cursor ∧
      (PushError msg s).loc = s.loc ∧
      (PushError msg s).input = s.input ∧
      (PushWarn msg s).err_stack = s.err_stack := by
  refine ⟨?_, ?_, rfl, rfl, rfl, rfl, rfl⟩ <;>
    · cases s
      rfl

/-- Claim C10: `VariableDef::DefaultPostParseHandler` returns success
(`true`) on every input string and never an error message; hence a schema
entry constructed with the C++ default arguments (no explicit post-parse
validator) accepts every decoded value. -/
theorem default_post_parse_handler_accepts_all (inp t n : String) :
    DefaultPostParseHandler inp = Except.ok true ∧
      (VariableDef.makeDefault t n).post_parse_handler inp = Except.ok true :=
  ⟨rfl, rfl⟩

/-- Claim C4: saving a checkpoint with `PushParserState`, consuming an
arbitrary amount of subsequent input (which moves stream offset and
cursor), then restoring via `PopParserState` followed by `SeekTo` the
saved offset, leaves all subsequent reads byte-identical to the reads
from the state at save time. -/
theorem checkpoint_restore_reads_identical (s : AsciiParserState) (k n : Nat) (c : Cursor) :
    ∃ st s3,
      PopParserState (consumeBytes k c (PushParserState s)) = some (st, s3) ∧
        LookCharN n (SeekTo st.loc.toNat s3) = LookCharN n (PushParserState s) ∧
        LookCharN n (PushParserState s) = LookCharN n s := by
  refine ⟨⟨(s.loc : Int)⟩, _, rfl, ?_, rfl⟩
  simp [LookCharN, SeekTo, consumeBytes, PushParserState]

/-!
Typed-value decoder model.  The decoder combinators declared in the
header (`ReadBasicType` on `nonstd::optional<T>`, `MaybeNone`,
`ParseBasicTypeTuple`, `SepBy1BasicType`, `ParseBasicTypeArray`) have no
bodies under src/, so they are modelled from the specification (§4.4).
The decode-time state is the remaining input together with the error
messages pushed so far; a bare decoder for element type `T` is a function
from that state to an optional value-and-state pair.
-/

/-- Decode-time state: the remaining input characters and the pushed
error messages (top at the head). -/
structure PState where
  rest : List Char
  errs : List String
deriving Repr, DecidableEq

/-- Whitespace characters skipped by `SkipWhitespace` (spec §4.3); the
newline is handled by the separate newline-aware skipper and is not
needed inside a single value literal. -/
def isWS (c : Char) : Bool :=
  c == ' ' || c == '\t' || c == '\r'

/-- Skip whitespace at the current position. -/
def skipWs (s : PState) : PState :=
  { s with rest := s.rest.dropWhile isWS }

/-- Identifier characters (letters, digits, underscore — spec §4.3). -/
def isIdentChar (c : Char) : Bool :=
  c.isAlpha || c.isDigit || c == '_'

/-- Modelled from the spec: `MaybeNone` (declared at ascii-parser.hh:615,
body not under src/) attempts to match the blocked-value keyword `None`
with one token of lookahead; on match it consumes exactly the keyword and
reports success, otherwise it consumes nothing. -/
def MaybeNone (s : PState) : Bool × PState :=
  let tok := s.rest.takeWhile isIdentChar
  if tok = ['N', 'o', 'n', 'e'] then
    (true, { s with rest := s.rest.drop tok.length })
  else (false, s)

/-- Modelled from the spec: the optional decode form
`ReadBasicType(nonstd::optional<T>*)` (declared at
ascii-parser.hh:329-386, bodies not under src/): first attempts
`MaybeNone`; on match returns success with the optional left empty,
otherwise decodes one bare value with the element decoder `pT`. -/
def ReadBasicTypeOpt {T : Type} (pT : PState → Option (T × PState)) (s : PState) :
    Option (Option T × PState) :=
  match MaybeNone s with
  | (true, s1) => some (none, s1)
  | (false, _) =>
      match pT s with
      | some (v, s2) => some (some v, s2)
      | none => none

/-- Claim C1: for every element type `T` (any bare decoder `pT`), the
optional decode form on input whose next token is the keyword `None`
returns success with the optional left empty, consumes exactly the four
keyword characters and nothing beyond them, and pushes no error
diagnostic (the structure-update result fixes `errs`). -/
theorem optional_decode_none_blocked {T : Type} (pT : PState → Option (T × PState))
    (s : PState) (h : s.rest.takeWhile isIdentChar = ['N', 'o', 'n', 'e']) :
    ReadBasicTypeOpt pT s = some (none, { s with rest := s.rest.drop 4 }) := by
  unfold ReadBasicTypeOpt MaybeNone
  simp [h]

/-- Witness for C1 at a concrete input: decoding the optional form on
`None 1` (with a decoder that would itself fail) succeeds with the empty
optional, leaves ` 1` unconsumed, and the pre-existing error entry is
untouched. -/
theorem optional_decode_none_blocked_witness :
    ReadBasicTypeOpt (fun _ => (none : Option (Nat × PState)))
        ⟨['N', 'o', 'n', 'e', ' ', '1'], ["old"]⟩ =
      some (none, ⟨[' ', '1'], ["old"]⟩) :=
  optional_decode_none_blocked _ _ (by decide)

/-- Modelled from the spec: the separated-list combinator
`SepBy1BasicType(sep, end_symbol, ...)` (declared at
ascii-parser.hh:491-493, body not under src/): one or more elements
separated by `','`, where the separator may also appear once after the
last element when the closing symbol `endc` follows (a trailing comma,
e.g. `[1, 2, 3,]`).  `fuel` bounds the recursion by the input length.
On the stop branches the closing symbol is left unconsumed. -/
def sepElemsAux {T : Type} (pT : PState → Option (T × PState)) (endc : Char) :
    Nat → PState → Option (List T × PState)
  | 0, _ => none
  | fuel + 1, s =>
      match pT s with
      | none => none
      | some (v, s1) =>
          let s2 := skipWs s1
          match s2.rest with
          | [] => some ([v], s2)
          | c :: r =>
              if c = ',' then
                let s3 := skipWs { s2 with rest := r }
                match s3.rest with
                | [] => none
                | c2 :: _ =>
                    if c2 = endc then some ([v], s3)
                    else
                      match sepElemsAux pT endc fuel s3 with
                      | some (vs, s4) => some (v :: vs, s4)
                      | none => none
              else some ([v], s2)

/-- Modelled from the spec: the fixed-arity tuple form
`ParseBasicTypeTuple<T, N>` (declared at ascii-parser.hh:464-465, body
not under src/): expects `'('`, the comma-separated bare values with an
optional trailing comma, then `')'`, and succeeds exactly when the number
of decoded values is `N`. -/
def ParseBasicTypeTuple {T : Type} (pT : PState → Option (T × PState)) (N : Nat)
    (s : PState) : Option (List T × PState) :=
  match s.rest with
  | [] => none
  | c :: r =>
      if c = '(' then
        let s1 := skipWs { s with rest := r }
        match sepElemsAux pT ')' (s1.rest.length + 1) s1 with
        | some (vs, s2) =>
            match (skipWs s2).rest with
            | [] => none
            | c2 :: r2 =>
                if c2 = ')' then
                  if vs.length = N then some (vs, { s2 with rest := r2 }) else none
                else none
        | none => none
      else none

/-- Modelled from the spec: the array form `ParseBasicTypeArray<T>`
(declared at ascii-parser.hh:504-505, body not under src/): expects
`'['`, zero or more comma-separated elements with a trailing comma
permitted before `']'`, then `']'`; the empty literal `[]` yields the
empty vector. -/
def ParseBasicTypeArray {T : Type} (pT : PState → Option (T × PState))
    (s : PState) : Option (List T × PState) :=
  match s.rest with
  | [] => none
  | c :: r =>
      if c = '[' then
        let s1 := skipWs { s with rest := r }
        match s1.rest with
        | [] => none
        | c2 :: r2 =>
            if c2 = ']' then some ([], { s1 with rest := r2 })
            else
              match sepElemsAux pT ']' (s1.rest.length + 1) s1 with
              | some (vs, s2) =>
                  match (skipWs s2).rest with
                  | [] => none
                  | c3 :: r3 =>
                      if c3 = ']' then some (vs, { s2 with rest := r3 }) else none
              | none => none
      else none

/-- The characters that may legitimately follow one bare element inside a
tuple or array literal: the separator and the two closing symbols. -/
def isDelim : Option Char → Bool
  | some c => c == ',' || c == ')' || c == ']'
  | none => false

/-- A rendered element is token-like: non-empty, and its first character
is neither whitespace nor a delimiter. -/
def headOk : List Char → Bool
  | [] => false
  | c :: _ => !isWS c && c != ',' && c != ')' && c != ']'

/-- `pT` decodes the element text `e` to exactly the value `v`, consuming
exactly `e`, whenever a delimiter follows, and pushes no error there. -/
def ParsesExactly {T : Type} (pT : PState → Option (T × PState))
    (e : List Char) (v : T) : Prop :=
  headOk e = true ∧
    ∀ (rest : List Char) (errs : List String), isDelim rest.head? = true →
      pT ⟨e ++ rest, errs⟩ = some (v, ⟨rest, errs⟩)

/-- Pointwise `ParsesExactly` between a list of element texts and the
list of their values. -/
def GoodElems {T : Type} (pT : PState → Option (T × PState))
    (elems : List (List Char)) (vals : List T) : Prop :=
  List.Forall₂ (ParsesExactly pT) elems vals

/-- Tail of a comma-separated rendering: `,e1,e2,...`. -/
def renderSepTail : List (List Char) → List Char
  | [] => []
  | e :: es => ',' :: (e ++ renderSepTail es)

/-- Comma-separated rendering `e1,e2,...,ek` of a list of element texts. -/
def renderSep : List (List Char) → List Char
  | [] => []
  | e :: es => e ++ renderSepTail es

/-- Numeric value of a decimal digit character. -/
def digitVal (c : Char) : Nat := c.toNat - 48

/-- Value of a decimal digit run. -/
def natFromDigits (ds : List Char) : Nat :=
  ds.foldl (fun a c => 10 * a + digitVal c) 0

/-- Modelled from the spec: a bare integer-literal decoder (a maximal
decimal digit run), standing in for the bare `ReadBasicType` of the
integer member of the value universe (declared at ascii-parser.hh:396,
body not under src/). -/
def readNatLit (s : PState) : Option (Nat × PState) :=
  let ds := s.rest.takeWhile Char.isDigit
  if ds = [] then none
  else some (natFromDigits ds, { s with rest := s.rest.drop ds.length })

lemma renderSepTail_cons_eq (e : List Char) (es : List (List Char)) :
    renderSepTail (e :: es) = ',' :: renderSep (e :: es) := rfl

lemma skipWs_cons_of_not_ws (c : Char) (r : List Char) (errs : List String)
    (h : isWS c = false) : skipWs ⟨c :: r, errs⟩ = ⟨c :: r, errs⟩ := by
  simp [skipWs, List.dropWhile_cons, h]

lemma headOk_facts (c : Char) (e' : List Char) (h : headOk (c :: e') = true) :
    isWS c = false ∧ c ≠ ',' ∧ c ≠ ')' ∧ c ≠ ']' := by
  simpa [headOk, and_assoc] using h

lemma renderSep_length_ge {T : Type} (pT : PState → Option (T × PState)) :
    ∀ (elems : List (List Char)) (vals : List T), GoodElems pT elems vals →
      elems.length ≤ (renderSep elems).length := by
  intro elems vals hg
  induction hg with
  | nil => simp [renderSep]
  | @cons e v es vs hpe hg' ih =>
      have he : e ≠ [] := by
        intro h
        rw [h] at hpe
        exact absurd hpe.1 (by simp [headOk])
      have he1 : 1 ≤ e.length := List.length_pos.mpr he
      cases es with
      | nil => simpa [renderSep, renderSepTail] using he1
      | cons e2 es' =>
          rw [renderSep, renderSepTail_cons_eq]
          simp only [List.length_cons, List.length_append]
          simp only [List.length_cons] at ih
          omega

lemma sepElemsAux_renders {T : Type} (pT : PState → Option (T × PState)) (endc : Char)
    (hend : endc = ')' ∨ endc = ']') :
    ∀ (elems : List (List Char)) (vals : List T), GoodElems pT elems vals →
      ∀ (fuel : Nat), elems ≠ [] → elems.length ≤ fuel →
        ∀ (trail : List Char), trail = [','] ∨ trail = [] →
          ∀ (rest : List Char) (errs : List String),
            sepElemsAux pT endc fuel ⟨renderSep elems ++ trail ++ endc :: rest, errs⟩
              = some (vals, ⟨endc :: rest, errs⟩) := by
  have hendne : endc ≠ ',' := by rcases hend with h | h <;> subst h <;> decide
  have hendws : isWS endc = false := by rcases hend with h | h <;> subst h <;> decide
  intro elems vals hg
  induction hg with
  | nil => intro fuel hne _; exact absurd rfl hne
  | @cons e v es vs hpe hg' ih =>
      intro fuel _ hfuel trail htrail rest errs
      obtain ⟨f, rfl⟩ : ∃ f, fuel = f + 1 := by
        cases fuel with
        | zero => simp at hfuel
        | succ f => exact ⟨f, rfl⟩
      cases hg' with
      | nil =>
          -- single element, optionally followed by the trailing comma
          rcases htrail with rfl | rfl
          · have hp := hpe.2 (',' :: endc :: rest) errs rfl
            rw [renderSep, renderSepTail, List.append_nil,
              show e ++ [','] ++ endc :: rest = e ++ (',' :: endc :: rest) by simp]
            simp only [sepElemsAux]
            rw [hp]
            dsimp only
            rw [skipWs_cons_of_not_ws _ _ _ (by decide)]
            dsimp only
            rw [if_pos rfl, skipWs_cons_of_not_ws _ _ _ hendws]
            dsimp only
            rw [if_pos rfl]
          · have hdelim : isDelim (endc :: rest).head? = true := by
              rcases hend with h | h <;> subst h <;> rfl
            have hp := hpe.2 (endc :: rest) errs hdelim
            rw [renderSep, renderSepTail, List.append_nil, List.append_nil]
            simp only [sepElemsAux]
            rw [hp]
            dsimp only
            rw [skipWs_cons_of_not_ws _ _ _ hendws]
            dsimp only
            rw [if_neg hendne]
      | @cons e2 v2 es' vs' hpe2 hg'' =>
          -- at least two elements: first element, then comma, then the rest
          obtain ⟨c2, e2', rfl⟩ : ∃ c2 e2', e2 = c2 :: e2' := by
            cases e2 with
            | nil => exact absurd hpe2.1 (by simp [headOk])
            | cons c2 e2' => exact ⟨c2, e2', rfl⟩
          obtain ⟨hc2ws, _, hc2p, hc2b⟩ := headOk_facts _ _ hpe2.1
          have hc2end : c2 ≠ endc := by
            rcases hend with h | h <;> subst h
            · exact hc2p
            · exact hc2b
          have hp := hpe.2
            (',' :: (renderSep ((c2 :: e2') :: es') ++ trail ++ endc :: rest)) errs rfl
          rw [renderSep, renderSepTail_cons_eq]
          simp only [List.cons_append, List.append_assoc]
          simp only [sepElemsAux]
          rw [List.append_assoc] at hp
          rw [hp]
          dsimp only
          rw [skipWs_cons_of_not_ws _ _ _ (by decide)]
          dsimp only
          rw [if_pos rfl]
          have hhead : renderSep ((c2 :: e2') :: es') ++ (trail ++ endc :: rest)
              = c2 :: (e2' ++ (renderSepTail es' ++ (trail ++ endc :: rest))) := by
            rw [renderSep]
            simp [List.cons_append, List.append_assoc]
          rw [hhead, skipWs_cons_of_not_ws _ _ _ hc2ws]
          dsimp only
          rw [if_neg hc2end]
          have hrec := ih f (by simp) (by simpa using Nat.le_of_succ_le_succ hfuel)
            trail htrail rest errs
          rw [renderSep] at hrec
          simp only [List.cons_append, List.append_assoc] at hrec
          rw [hrec]

lemma parsesExactly_digit (d : Char) (h1 : d.isDigit = true) (h2 : headOk [d] = true) :
    ParsesExactly readNatLit [d] (digitVal d) := by
  refine ⟨h2, ?_⟩
  intro rest errs hd
  cases rest with
  | nil => simp [isDelim] at hd
  | cons c t =>
      have hcd : c.isDigit = false := by
        simp [isDelim] at hd
        rcases hd with (rfl | rfl) | rfl <;> decide
      simp [readNatLit, List.takeWhile_cons, h1, hcd, natFromDigits]

lemma goodElems_123 : GoodElems readNatLit [['1'], ['2'], ['3']] [1, 2, 3] := by
  refine List.Forall₂.cons ?_ (List.Forall₂.cons ?_ (List.Forall₂.cons ?_ List.Forall₂.nil))
  · exact parsesExactly_digit '1' (by decide) (by decide)
  · exact parsesExactly_digit '2' (by decide) (by decide)
  · exact parsesExactly_digit '3' (by decide) (by decide)

lemma goodElems_7 : GoodElems readNatLit [['7']] [7] :=
  List.Forall₂.cons (parsesExactly_digit '7' (by decide) (by decide)) List.Forall₂.nil

/-- Claim C2: for every element type `T` (any bare decoder `pT` that
decodes the rendered elements exactly) and every arity `N`,
`ParseBasicTypeTuple` on `'('`, the comma-separated elements, an optional
trailing comma (`trail` is `[',']` or `[]`) and `')'` succeeds — with the
element values — exactly when the number of supplied elements is `N`; in
particular `N - 1` or `N + 1` non-trailing elements fail. -/
theorem tuple_arity_exact {T : Type} (pT : PState → Option (T × PState)) (N : Nat)
    (elems : List (List Char)) (vals : List T) (hg : GoodElems pT elems vals)
    (hne : elems ≠ []) (trail : List Char) (htrail : trail = [','] ∨ trail = [])
    (rest : List Char) (errs : List String) :
    ParseBasicTypeTuple pT N ⟨'(' :: (renderSep elems ++ trail ++ ')' :: rest), errs⟩
      = if elems.length = N then some (vals, ⟨rest, errs⟩) else none := by
  have hlen : elems.length = vals.length := List.Forall₂.length_eq hg
  have hrlen := renderSep_length_ge pT elems vals hg
  obtain ⟨e, es, rfl⟩ : ∃ e es, elems = e :: es := by
    cases elems with
    | nil => exact absurd rfl hne
    | cons e es => exact ⟨e, es, rfl⟩
  have hpe1 : headOk e = true := by
    cases hg with
    | cons hpe _ => exact hpe.1
  obtain ⟨c, e', rfl⟩ : ∃ c e', e = c :: e' := by
    cases e with
    | nil => simp [headOk] at hpe1
    | cons c e' => exact ⟨c, e', rfl⟩
  obtain ⟨hcws, _, _, _⟩ := headOk_facts _ _ hpe1
  have hmain := sepElemsAux_renders pT ')' (Or.inl rfl) ((c :: e') :: es) vals hg
    ((renderSep ((c :: e') :: es) ++ (trail ++ ')' :: rest)).length + 1)
    (by simp)
    (by
      simp only [List.length_append]
      simp only [List.length_cons] at hrlen ⊢
      omega)
    trail htrail rest errs
  have hrender : renderSep ((c :: e') :: es) ++ (trail ++ ')' :: rest)
      = c :: (e' ++ (renderSepTail es ++ (trail ++ ')' :: rest))) := by
    rw [renderSep]
    simp [List.cons_append, List.append_assoc]
  simp only [ParseBasicTypeTuple, if_true]
  simp only [List.append_assoc]
  rw [hrender, skipWs_cons_of_not_ws _ _ _ hcws]
  dsimp only
  rw [← hrender]
  simp only [List.append_assoc] at hmain
  rw [hmain]
  dsimp only
  rw [skipWs_cons_of_not_ws _ _ _ (by decide)]
  dsimp only
  rw [if_pos rfl, ← hlen]

/-- Witness for C2 at concrete input: with the single-digit integer
decoder, `(1,2,3)` decodes as a 3-tuple to `[1, 2, 3]`, and the same
input fails as a 2-tuple (one element too many). -/
theorem tuple_arity_exact_witness :
    ParseBasicTypeTuple readNatLit 3
        ⟨'(' :: (renderSep [['1'], ['2'], ['3']] ++ [] ++ ')' :: []), []⟩
      = some ([1, 2, 3], ⟨[], []⟩) ∧
      ParseBasicTypeTuple readNatLit 2
          ⟨'(' :: (renderSep [['1'], ['2'], ['3']] ++ [] ++ ')' :: []), []⟩
        = none := by
  constructor
  · have h := tuple_arity_exact readNatLit 3 [['1'], ['2'], ['3']] [1, 2, 3]
      goodElems_123 (by simp) [] (Or.inr rfl) [] []
    simpa using h
  · have h := tuple_arity_exact readNatLit 2 [['1'], ['2'], ['3']] [1, 2, 3]
      goodElems_123 (by simp) [] (Or.inr rfl) [] []
    simpa using h

/-- Claim C3: `ParseBasicTypeArray` succeeds on the empty array literal
`[]` yielding the empty vector; it accepts one optional trailing comma
before `']'` (`trail` is `[',']` or `[]`) with the same decoded values
either way; in particular decoding `[1, 2, 3,]` and `[1, 2, 3]` with the
integer decoder both yield the same three-element result `[1, 2, 3]`. -/
theorem array_empty_and_trailing_comma :
    (∀ (T : Type) (pT : PState → Option (T × PState)) (rest : List Char)
        (errs : List String),
        ParseBasicTypeArray pT ⟨'[' :: ']' :: rest, errs⟩ = some ([], ⟨rest, errs⟩))
    ∧ (∀ (T : Type) (pT : PState → Option (T × PState)) (elems : List (List Char))
        (vals : List T), GoodElems pT elems vals → elems ≠ [] →
          ∀ (trail : List Char), trail = [','] ∨ trail = [] →
            ∀ (rest : List Char) (errs : List String),
              ParseBasicTypeArray pT ⟨'[' :: (renderSep elems ++ trail ++ ']' :: rest), errs⟩
                = some (vals, ⟨rest, errs⟩))
    ∧ ParseBasicTypeArray readNatLit ⟨"[1, 2, 3,]".toList, []⟩ = some ([1, 2, 3], ⟨[], []⟩)
    ∧ ParseBasicTypeArray readNatLit ⟨"[1, 2, 3]".toList, []⟩ = some ([1, 2, 3], ⟨[], []⟩) := by
  refine ⟨?_, ?_, ?_, ?_⟩
  · intro T pT rest errs
    simp only [ParseBasicTypeArray, if_true]
    rw [skipWs_cons_of_not_ws _ _ _ (by decide)]
    dsimp only
    rw [if_pos rfl]
  · intro T pT elems vals hg hne trail htrail rest errs
    have hrlen := renderSep_length_ge pT elems vals hg
    obtain ⟨e, es, rfl⟩ : ∃ e es, elems = e :: es := by
      cases elems with
      | nil => exact absurd rfl hne
      | cons e es => exact ⟨e, es, rfl⟩
    have hpe1 : headOk e = true := by
      cases hg with
      | cons hpe _ => exact hpe.1
    obtain ⟨c, e', rfl⟩ : ∃ c e', e = c :: e' := by
      cases e with
      | nil => simp [headOk] at hpe1
      | cons c e' => exact ⟨c, e', rfl⟩
    obtain ⟨hcws, _, _, hcb⟩ := headOk_facts _ _ hpe1
    have hmain := sepElemsAux_renders pT ']' (Or.inr rfl) ((c :: e') :: es) vals hg
      ((renderSep ((c :: e') :: es) ++ (trail ++ ']' :: rest)).length + 1)
      (by simp)
      (by
        simp only [List.length_append]
        simp only [List.length_cons] at hrlen ⊢
        omega)
      trail htrail rest errs
    have hrender : renderSep ((c :: e') :: es) ++ (trail ++ ']' :: rest)
        = c :: (e' ++ (renderSepTail es ++ (trail ++ ']' :: rest))) := by
      rw [renderSep]
      simp [List.cons_append, List.append_assoc]
    simp only [ParseBasicTypeArray, if_true]
    simp only [List.append_assoc]
    rw [hrender, skipWs_cons_of_not_ws _ _ _ hcws]
    dsimp only
    rw [if_neg hcb, ← hrender]
    simp only [List.append_assoc] at hmain
    rw [hmain]
    dsimp only
    rw [skipWs_cons_of_not_ws _ _ _ (by decide)]
    dsimp only
    rw [if_pos rfl]
  · decide
  · decide

/-- Witness for C3 at concrete input: the empty literal `[]` yields the
empty integer vector, and `[7,]` (trailing comma) yields `[7]`. -/
theorem array_empty_and_trailing_comma_witness :
    ParseBasicTypeArray readNatLit ⟨'[' :: ']' :: [], []⟩ = some (([] : List Nat), ⟨[], []⟩) ∧
      ParseBasicTypeArray readNatLit ⟨'[' :: (renderSep [['7']] ++ [','] ++ ']' :: []), []⟩
        = some ([7], ⟨[], []⟩) := by
  constructor
  · exact array_empty_and_trailing_comma.1 Nat readNatLit [] []
  · exact array_empty_and_trailing_comma.2.1 Nat readNatLit [['7']] [7]
      goodElems_7 (by simp) [','] (Or.inl rfl) [] []

end TinyusdzAscii
